import Mathlib

/-!
Verification of the sailing recommendation system
(`src/sailing_rec_UI_v1.py`).

The UI of the repository collects preferences and importance weights, then
attaches scores to rows of an uploaded spreadsheet.  The scoring that the
source actually ships is the placeholder
`create_dummy_recommendations_with_scores` (random scores in [65, 95]);
the spec defines the intended deterministic core `score_sailings`
(weight normalizer, four factor scorers, aggregator), which has no
implementation under `src/`.  We embed both:

* `handle_weights` — the real weight validation/normalization code
  (src lines 285-298);
* `create_dummy_recommendations_with_scores` — the real placeholder
  (src lines 435-452), with the stream of `random.uniform(65, 95)` draws
  made an explicit argument `u : ℕ → ℚ`;
* `score_sailings` and its factor scorers — modelled from the spec,
  since the deterministic core is absent from the source.

Numeric values are embedded as `ℚ`.
-/

namespace SailRec

/-- Raw importance weights, one per factor, as produced by the four 0-10
sliders in `handle_weights` (src lines 252-283). -/
structure WeightConfig where
  ship : ℕ
  month : ℕ
  port : ℕ
  theo : ℕ
  deriving DecidableEq, Repr

/-- Normalized weights, `raw[i] / sum(raw)` (src lines 293-298). -/
structure NormalizedWeights where
  ship : ℚ
  month : ℚ
  port : ℚ
  theo : ℚ
  deriving DecidableEq, Repr

/-- Sum of the four raw weights (src line 292, `total_weight`). -/
def totalWeight (w : WeightConfig) : ℕ :=
  w.ship + w.month + w.port + w.theo

/-- All four raw weights are zero (src line 287, `all(w == 0 ...)`). -/
def allZero (w : WeightConfig) : Prop :=
  w.ship = 0 ∧ w.month = 0 ∧ w.port = 0 ∧ w.theo = 0

instance (w : WeightConfig) : Decidable (allZero w) := by
  unfold allZero; infer_instance

/-- Normalization step of `handle_weights` (src lines 292-298):
each normalized weight is the raw weight divided by the total. -/
def normalizeWeights (w : WeightConfig) : NormalizedWeights :=
  ⟨(w.ship : ℚ) / (totalWeight w : ℚ),
   (w.month : ℚ) / (totalWeight w : ℚ),
   (w.port : ℚ) / (totalWeight w : ℚ),
   (w.theo : ℚ) / (totalWeight w : ℚ)⟩

/-- Validation and normalization in `handle_weights` (src lines 285-298):
rejects an all-zero configuration (the UI shows an error and returns),
otherwise computes the normalized weights. -/
def handle_weights (w : WeightConfig) : Option NormalizedWeights :=
  if allZero w then none
  else some (normalizeWeights w)

/-- Sum of the four normalized weights. -/
def normSum (nw : NormalizedWeights) : ℚ :=
  nw.ship + nw.month + nw.port + nw.theo

theorem totalWeight_pos_of_not_allZero (w : WeightConfig) (h : ¬ allZero w) :
    0 < totalWeight w := by
  rcases Nat.eq_zero_or_pos (totalWeight w) with h0 | hp
  · exfalso
    apply h
    unfold totalWeight at h0
    unfold allZero
    omega
  · exact hp

theorem normalizeWeights_sum_eq_one (w : WeightConfig) (h : ¬ allZero w) :
    normSum (normalizeWeights w) = 1 := by
  have hp : 0 < totalWeight w := totalWeight_pos_of_not_allZero w h
  have ht : ((totalWeight w : ℚ)) ≠ 0 := by
    exact_mod_cast Nat.pos_iff_ne_zero.mp hp
  unfold normSum normalizeWeights
  simp only
  rw [div_add_div_same, div_add_div_same, div_add_div_same, div_eq_one_iff_eq ht]
  unfold totalWeight
  push_cast
  ring

theorem normalized_component_mem_unit (a t : ℕ) (ha : a ≤ t) (ht : 0 < t) :
    0 ≤ (a : ℚ) / (t : ℚ) ∧ (a : ℚ) / (t : ℚ) ≤ 1 := by
  have htq : (0 : ℚ) < (t : ℚ) := by exact_mod_cast ht
  constructor
  · positivity
  · rw [div_le_one htq]
    exact_mod_cast ha

/-- Claim C4: for every weight configuration of four non-negative raw values
with at least one positive, `handle_weights` returns normalized weights
`raw[i] / sum(raw)`, each in `[0, 1]`, summing to `1` (hence within the
`1e-9` tolerance of `1.0`). -/
theorem handle_weights_normalizes (w : WeightConfig) (h : 0 < totalWeight w) :
    ∃ nw : NormalizedWeights, handle_weights w = some nw ∧
      nw.ship = (w.ship : ℚ) / (totalWeight w : ℚ) ∧
      nw.month = (w.month : ℚ) / (totalWeight w : ℚ) ∧
      nw.port = (w.port : ℚ) / (totalWeight w : ℚ) ∧
      nw.theo = (w.theo : ℚ) / (totalWeight w : ℚ) ∧
      (0 ≤ nw.ship ∧ nw.ship ≤ 1) ∧
      (0 ≤ nw.month ∧ nw.month ≤ 1) ∧
      (0 ≤ nw.port ∧ nw.port ≤ 1) ∧
      (0 ≤ nw.theo ∧ nw.theo ≤ 1) ∧
      normSum nw = 1 ∧
      |normSum nw - 1| ≤ 1 / 1000000000 := by
  have hnz : ¬ allZero w := by
    intro hz
    rcases hz with ⟨h1, h2, h3, h4⟩
    unfold totalWeight at h
    omega
  refine ⟨normalizeWeights w, ?_, rfl, rfl, rfl, rfl, ?_, ?_, ?_, ?_, ?_, ?_⟩
  · unfold handle_weights
    rw [if_neg hnz]
  · exact normalized_component_mem_unit w.ship (totalWeight w)
      (by unfold totalWeight; omega) h
  · exact normalized_component_mem_unit w.month (totalWeight w)
      (by unfold totalWeight; omega) h
  · exact normalized_component_mem_unit w.port (totalWeight w)
      (by unfold totalWeight; omega) h
  · exact normalized_component_mem_unit w.theo (totalWeight w)
      (by unfold totalWeight; omega) h
  · exact normalizeWeights_sum_eq_one w hnz
  · rw [normalizeWeights_sum_eq_one w hnz]
    norm_num

/-- Witness for `C4` at the UI defaults (all sliders at 3). -/
theorem handle_weights_normalizes_witness :
    0 < totalWeight ⟨3, 3, 3, 3⟩ ∧
    ∃ nw : NormalizedWeights, handle_weights ⟨3, 3, 3, 3⟩ = some nw ∧
      nw.ship = ((3 : ℕ) : ℚ) / (totalWeight ⟨3, 3, 3, 3⟩ : ℚ) ∧
      nw.month = ((3 : ℕ) : ℚ) / (totalWeight ⟨3, 3, 3, 3⟩ : ℚ) ∧
      nw.port = ((3 : ℕ) : ℚ) / (totalWeight ⟨3, 3, 3, 3⟩ : ℚ) ∧
      nw.theo = ((3 : ℕ) : ℚ) / (totalWeight ⟨3, 3, 3, 3⟩ : ℚ) ∧
      (0 ≤ nw.ship ∧ nw.ship ≤ 1) ∧
      (0 ≤ nw.month ∧ nw.month ≤ 1) ∧
      (0 ≤ nw.port ∧ nw.port ≤ 1) ∧
      (0 ≤ nw.theo ∧ nw.theo ≤ 1) ∧
      normSum nw = 1 ∧
      |normSum nw - 1| ≤ 1 / 1000000000 :=
  ⟨by decide, handle_weights_normalizes ⟨3, 3, 3, 3⟩ (by decide)⟩

/-! ### The placeholder scorer actually shipped in the source -/

/-- A spreadsheet cell: textual or numeric. -/
inductive Cell
  | str (s : String)
  | num (q : ℚ)
  deriving DecidableEq, Repr

/-- A dataframe row: named cells in column order. -/
abbrev Row := List (String × Cell)

/-- Round to the nearest integer, ties to the even integer — the rounding
mode of the Python built-in `round`. -/
def roundHalfEven (x : ℚ) : ℤ :=
  if x - (⌊x⌋ : ℚ) < 1 / 2 then ⌊x⌋
  else if 1 / 2 < x - (⌊x⌋ : ℚ) then ⌊x⌋ + 1
  else if 2 ∣ ⌊x⌋ then ⌊x⌋ else ⌊x⌋ + 1

/-- The Python expression `round(x, 2)` (src line 444). -/
def round2 (x : ℚ) : ℚ := (roundHalfEven (100 * x) : ℚ) / 100

theorem roundHalfEven_le (x : ℚ) (n : ℤ) (h : x ≤ (n : ℚ)) :
    roundHalfEven x ≤ n := by
  have hfl : ⌊x⌋ ≤ n := Int.floor_le_floor h |>.trans_eq (Int.floor_intCast n)
  unfold roundHalfEven
  split
  · exact hfl
  · rename_i h1
    split
    · rename_i h2
      have hx : (⌊x⌋ : ℚ) < x := by linarith [Int.floor_le x]
      have : ⌊x⌋ < n := by
        by_contra hc
        have he : ⌊x⌋ = n := le_antisymm hfl (not_lt.mp hc)
        rw [he] at h2
        linarith
      omega
    · split
      · exact hfl
      · rename_i h2 h3
        have h4 : x - (⌊x⌋ : ℚ) = 1 / 2 := le_antisymm (not_lt.mp h2) (not_lt.mp h1)
        have : ⌊x⌋ < n := by
          by_contra hc
          have he : ⌊x⌋ = n := le_antisymm hfl (not_lt.mp hc)
          rw [he] at h4
          linarith
        omega

theorem le_roundHalfEven (x : ℚ) (n : ℤ) (h : (n : ℚ) ≤ x) :
    n ≤ roundHalfEven x := by
  have hfl : n ≤ ⌊x⌋ := by
    rw [Int.le_floor]
    exact_mod_cast h
  unfold roundHalfEven
  split
  · exact hfl
  · split
    · omega
    · split
      · exact hfl
      · omega

theorem round2_bounds (x : ℚ) (h65 : 65 ≤ x) (h95 : x ≤ 95) :
    (∃ m : ℤ, round2 x = (m : ℚ) / 100) ∧ 65 ≤ round2 x ∧ round2 x ≤ 95 := by
  have hlo : ((6500 : ℤ) : ℚ) ≤ 100 * x := by push_cast; linarith
  have hhi : 100 * x ≤ ((9500 : ℤ) : ℚ) := by push_cast; linarith
  have h1 : (6500 : ℤ) ≤ roundHalfEven (100 * x) := le_roundHalfEven _ _ hlo
  have h2 : roundHalfEven (100 * x) ≤ (9500 : ℤ) := roundHalfEven_le _ _ hhi
  refine ⟨⟨roundHalfEven (100 * x), rfl⟩, ?_, ?_⟩
  · unfold round2
    rw [le_div_iff₀ (by norm_num : (0 : ℚ) < 100)]
    have h3 : (6500 : ℚ) ≤ (roundHalfEven (100 * x) : ℚ) := by exact_mod_cast h1
    linarith
  · unfold round2
    rw [div_le_iff₀ (by norm_num : (0 : ℚ) < 100)]
    have h3 : (roundHalfEven (100 * x) : ℚ) ≤ (9500 : ℚ) := by exact_mod_cast h2
    linarith

/-- The numeric value of the last cell of a row (the `Match Score` column once
appended); `0` if absent. This is the key `sort_values` sorts on. -/
def lastScore (r : Row) : ℚ :=
  match r.getLast? with
  | some (_, Cell.num q) => q
  | _ => 0

/-- Descending comparison on the `Match Score` column (src line 447,
`sort_values` on `Match Score` with `ascending=False`). -/
def scoreGe (a b : Row) : Prop := lastScore b ≤ lastScore a

instance : DecidableRel scoreGe := fun a b => by
  unfold scoreGe; infer_instance

instance : IsTotal Row scoreGe :=
  ⟨fun a b => le_total (lastScore b) (lastScore a)⟩

instance : IsTrans Row scoreGe :=
  ⟨fun _ _ _ hab hbc => le_trans hbc hab⟩

/-- Append the `Match Score` column: row `k` gets `round(u k, 2)`
(src line 444). -/
def appendScores (u : ℕ → ℚ) (k : ℕ) : List Row → List Row
  | [] => []
  | r :: rs =>
    (r ++ [("Match Score", Cell.num (round2 (u k)))]) :: appendScores u (k + 1) rs

/-- Insert the `Rank` column of 1-based positions at the front of each row
(src line 450, inserting `Rank` at column position 0 with values 1 to n). -/
def insertRanksFrom (k : ℕ) : List Row → List Row
  | [] => []
  | r :: rs => (("Rank", Cell.num (k : ℚ)) :: r) :: insertRanksFrom (k + 1) rs

/-- Embedding of `create_dummy_recommendations_with_scores` (src lines 435-452), the
placeholder scoring actually shipped: copies the dataset, appends a
`Match Score` column of rounded draws, sorts descending on it and inserts a
`Rank` column in front. The stream of `random.uniform(65, 95)` draws is the
explicit argument `u`. pandas `sort_values` leaves the order of tied rows
unspecified (quicksort); the embedding fixes one concrete descending order. -/
def create_dummy_recommendations_with_scores (df : List Row) (u : ℕ → ℚ) :
    List Row :=
  insertRanksFrom 1 (List.insertionSort scoreGe (appendScores u 0 df))

/-- The original columns of an output row: drop the leading `Rank` cell and
the trailing `Match Score` cell. -/
def originalPart (r : Row) : Row := (r.drop 1).dropLast

theorem mem_appendScores (u : ℕ → ℚ) (k : ℕ) (df : List Row) (r : Row)
    (h : r ∈ appendScores u k df) :
    ∃ i : ℕ, ∃ orig ∈ df,
      r = orig ++ [("Match Score", Cell.num (round2 (u i)))] := by
  induction df generalizing k with
  | nil => simp [appendScores] at h
  | cons a as ih =>
    simp only [appendScores, List.mem_cons] at h
    rcases h with h | h
    · exact ⟨k, a, List.mem_cons_self a as, h⟩
    · rcases ih (k + 1) h with ⟨i, orig, horig, heq⟩
      exact ⟨i, orig, List.mem_cons_of_mem a horig, heq⟩

theorem mem_insertRanksFrom (k : ℕ) (l : List Row) (r : Row)
    (h : r ∈ insertRanksFrom k l) :
    ∃ j : ℕ, ∃ row ∈ l, r = ("Rank", Cell.num (j : ℚ)) :: row := by
  induction l generalizing k with
  | nil => simp [insertRanksFrom] at h
  | cons a as ih =>
    simp only [insertRanksFrom, List.mem_cons] at h
    rcases h with h | h
    · exact ⟨k, a, List.mem_cons_self a as, h⟩
    · rcases ih (k + 1) h with ⟨j, row, hrow, heq⟩
      exact ⟨j, row, List.mem_cons_of_mem a hrow, heq⟩

theorem map_dropLast_appendScores (u : ℕ → ℚ) (k : ℕ) (df : List Row) :
    (appendScores u k df).map List.dropLast = df := by
  induction df generalizing k with
  | nil => rfl
  | cons a as ih =>
    simp only [appendScores, List.map_cons, List.dropLast_concat, ih]

theorem map_originalPart_insertRanksFrom (k : ℕ) (l : List Row) :
    (insertRanksFrom k l).map originalPart = l.map List.dropLast := by
  induction l generalizing k with
  | nil => rfl
  | cons a as ih =>
    simp only [insertRanksFrom, List.map_cons, ih]
    rfl

/-- Claim C9: every `Match Score` value the placeholder attaches lies in
`[65, 95]` and is a two-decimal value, given that each raw draw lies in
`[65, 95]` as `random.uniform(65, 95)` guarantees. -/
theorem dummy_scores_in_range (df : List Row) (u : ℕ → ℚ)
    (hu : ∀ i, 65 ≤ u i ∧ u i ≤ 95) :
    ∀ r ∈ create_dummy_recommendations_with_scores df u,
      ∃ q : ℚ, r.getLast? = some ("Match Score", Cell.num q) ∧
        (∃ m : ℤ, q = (m : ℚ) / 100) ∧ 65 ≤ q ∧ q ≤ 95 := by
  intro r hr
  unfold create_dummy_recommendations_with_scores at hr
  rcases mem_insertRanksFrom _ _ _ hr with ⟨j, row, hrow, heq⟩
  have hrow2 : row ∈ appendScores u 0 df :=
    (List.perm_insertionSort scoreGe (appendScores u 0 df)).mem_iff.mp hrow
  rcases mem_appendScores _ _ _ _ hrow2 with ⟨i, orig, _, heq2⟩
  refine ⟨round2 (u i), ?_, (round2_bounds (u i) (hu i).1 (hu i).2).1,
    (round2_bounds (u i) (hu i).1 (hu i).2).2.1,
    (round2_bounds (u i) (hu i).1 (hu i).2).2.2⟩
  subst heq heq2
  rw [← List.cons_append, List.getLast?_concat]

/-- Witness for `C9` at the concrete output row of a one-row dataset with a
constant draw of `80`. -/
theorem dummy_scores_in_range_witness :
    ∃ q : ℚ, ([("Rank", Cell.num 1), ("Ship Code", Cell.str "IC"),
        ("Match Score", Cell.num 80)] : Row).getLast? =
      some ("Match Score", Cell.num q) ∧
      (∃ m : ℤ, q = (m : ℚ) / 100) ∧ 65 ≤ q ∧ q ≤ 95 :=
  dummy_scores_in_range [[("Ship Code", Cell.str "IC")]] (fun _ => 80)
    (fun _ => by norm_num)
    [("Rank", Cell.num 1), ("Ship Code", Cell.str "IC"),
      ("Match Score", Cell.num 80)]
    (by norm_num [create_dummy_recommendations_with_scores, insertRanksFrom,
      appendScores, round2, roundHalfEven, List.insertionSort,
      List.orderedInsert])

/-- Claim C10: the placeholder leaves the source dataset unchanged — the rows it
returns are the original rows (as a multiset, with every cell preserved),
each extended by exactly a leading `Rank` cell and a trailing
`Match Score` cell. -/
theorem dummy_preserves_dataset (df : List Row) (u : ℕ → ℚ) :
    ((create_dummy_recommendations_with_scores df u).map originalPart).Perm df ∧
    ∀ r ∈ create_dummy_recommendations_with_scores df u,
      ∃ k : ℕ, ∃ q : ℚ,
        r = ("Rank", Cell.num (k : ℚ)) :: (originalPart r ++
          [("Match Score", Cell.num q)]) := by
  constructor
  · unfold create_dummy_recommendations_with_scores
    rw [map_originalPart_insertRanksFrom]
    have hperm := (List.perm_insertionSort scoreGe (appendScores u 0 df)).map
      List.dropLast
    rw [map_dropLast_appendScores] at hperm
    exact hperm
  · intro r hr
    unfold create_dummy_recommendations_with_scores at hr
    rcases mem_insertRanksFrom _ _ _ hr with ⟨j, row, hrow, heq⟩
    have hrow2 : row ∈ appendScores u 0 df :=
      (List.perm_insertionSort scoreGe (appendScores u 0 df)).mem_iff.mp hrow
    rcases mem_appendScores _ _ _ _ hrow2 with ⟨i, orig, _, heq2⟩
    refine ⟨j, round2 (u i), ?_⟩
    subst heq heq2
    unfold originalPart
    simp [List.dropLast_concat]

/-- Witness for `C10` on a concrete two-row dataset. -/
theorem dummy_preserves_dataset_witness :
    (((create_dummy_recommendations_with_scores
        [[("Ship Code", Cell.str "IC")], [("Ship Code", Cell.str "ST")]]
        (fun i => 80 + i)).map originalPart).Perm
      [[("Ship Code", Cell.str "IC")], [("Ship Code", Cell.str "ST")]]) ∧
    ∀ r ∈ create_dummy_recommendations_with_scores
        [[("Ship Code", Cell.str "IC")], [("Ship Code", Cell.str "ST")]]
        (fun i => 80 + i),
      ∃ k : ℕ, ∃ q : ℚ,
        r = ("Rank", Cell.num (k : ℚ)) :: (originalPart r ++
          [("Match Score", Cell.num q)]) :=
  dummy_preserves_dataset _ _

/-! ### The intended deterministic core, modelled from the spec

The spec (sections 2-7) describes a deterministic scoring core
`score_sailings` that the source does not implement (the shipped scoring is
the random placeholder above).  The following definitions are therefore
modelled from the words of the spec. -/

/-- Modelled from the spec: a row as supplied by the dataset loader; a
required field (ship identifier, month, port identifier, numeric
profitability indicator) a record may lack is `none` (spec section 6).
The deterministic core is absent from the source. -/
structure RawRecord where
  ship : Option String
  month : Option ℕ
  port : Option String
  theo : Option ℚ
  deriving DecidableEq, Repr

/-- Modelled from the spec: a `SailingRecord` (spec section 3) with all
required fields present. -/
structure SailingRecord where
  ship : String
  month : ℕ
  port : String
  theo : ℚ
  deriving DecidableEq, Repr

/-- Modelled from the spec: `PreferenceSet` (spec section 3) — possibly
empty choices of ships, months and ports; empty means no preference. -/
structure PreferenceSet where
  ships : List String
  months : List ℕ
  ports : List String
  deriving DecidableEq, Repr

/-- Modelled from the spec: `ScoredSailing` (spec section 3) — a record, its
input position, the four factor scores, the aggregate Match Score, and the
1-based rank assigned after sorting. -/
structure ScoredSailing where
  record : SailingRecord
  srcIdx : ℕ
  shipS : ℚ
  monthS : ℚ
  portS : ℚ
  theoS : ℚ
  matchScore : ℚ
  rank : ℕ
  deriving DecidableEq, Repr

/-- Modelled from the spec: the typed failures of the core (spec
section 7). -/
inductive ScoringError
  | invalidConfiguration
  | missingRequiredField
  deriving DecidableEq, Repr

/-- Modelled from the spec: the ship scorer (spec section 4.2). -/
def shipScore (r : SailingRecord) (p : PreferenceSet) : ℚ :=
  if p.ships = [] ∨ r.ship ∈ p.ships then 1 else 0

/-- Modelled from the spec: the month scorer (spec section 4.2). -/
def monthScore (r : SailingRecord) (p : PreferenceSet) : ℚ :=
  if p.months = [] ∨ r.month ∈ p.months then 1 else 0

/-- Modelled from the spec: the port scorer (spec section 4.2). -/
def portScore (r : SailingRecord) (p : PreferenceSet) : ℚ :=
  if p.ports = [] ∨ r.port ∈ p.ports then 1 else 0

/-- Modelled from the spec: the profitability scorer (spec section 4.2) —
min-max normalization against the dataset range, clamped to `[0, 1]`;
neutral `0.5` when the range is flat. -/
def theoScore (lo hi v : ℚ) : ℚ :=
  if hi = lo then 1 / 2 else max 0 (min 1 ((v - lo) / (hi - lo)))

/-- Minimum of a list of rationals (`0` for the empty list, which is never
scored). -/
def listMin : List ℚ → ℚ
  | [] => 0
  | x :: xs => xs.foldl min x

/-- Maximum of a list of rationals (`0` for the empty list). -/
def listMax : List ℚ → ℚ
  | [] => 0
  | x :: xs => xs.foldl max x

/-- Modelled from the spec: the dataset-loading field contract (spec
sections 6 and 9) — a record validates only when all four required fields
are present. -/
def validateRecord (r : RawRecord) : Option SailingRecord :=
  match r.ship, r.month, r.port, r.theo with
  | some s, some m, some pt, some t => some ⟨s, m, pt, t⟩
  | _, _, _, _ => none

/-- Modelled from the spec: dataset-wide validation, failing fast (one
failure for the whole dataset) as soon as any record lacks a field. -/
def validateDataset : List RawRecord → Option (List SailingRecord)
  | [] => some []
  | r :: rs =>
    match validateRecord r, validateDataset rs with
    | some v, some vs => some (v :: vs)
    | _, _ => none

/-- A raw record lacks at least one required field. -/
def hasMissingField (r : RawRecord) : Prop :=
  r.ship = none ∨ r.month = none ∨ r.port = none ∨ r.theo = none

instance (r : RawRecord) : Decidable (hasMissingField r) := by
  unfold hasMissingField; infer_instance

/-- Modelled from the spec: one step of the aggregator (spec section 4.3) —
Match Score = 100 × Σ normalized_weight[f] × factor_score[f]; the rank is
assigned after sorting. -/
def mkScored (p : PreferenceSet) (nw : NormalizedWeights) (lo hi : ℚ)
    (i : ℕ) (r : SailingRecord) : ScoredSailing :=
  ⟨r, i, shipScore r p, monthScore r p, portScore r p, theoScore lo hi r.theo,
    100 * (nw.ship * shipScore r p + nw.month * monthScore r p +
      nw.port * portScore r p + nw.theo * theoScore lo hi r.theo), 0⟩

/-- Score every record, tagging each with its input position. -/
def scoreAllFrom (p : PreferenceSet) (nw : NormalizedWeights) (lo hi : ℚ) :
    ℕ → List SailingRecord → List ScoredSailing
  | _, [] => []
  | i, r :: rs => mkScored p nw lo hi i r :: scoreAllFrom p nw lo hi (i + 1) rs

/-- Modelled from the spec: the sort order of the aggregator (spec section 4.3) —
descending Match Score, ties broken by original input position
(a stable descending sort). -/
def recBefore (a b : ScoredSailing) : Prop :=
  b.matchScore < a.matchScore ∨
    (b.matchScore = a.matchScore ∧ a.srcIdx ≤ b.srcIdx)

instance : DecidableRel recBefore := fun a b => by
  unfold recBefore; infer_instance

instance : IsTotal ScoredSailing recBefore := by
  constructor
  intro a b
  rcases lt_trichotomy a.matchScore b.matchScore with h | h | h
  · exact Or.inr (Or.inl h)
  · rcases Nat.le_total a.srcIdx b.srcIdx with hi | hi
    · exact Or.inl (Or.inr ⟨h.symm, hi⟩)
    · exact Or.inr (Or.inr ⟨h, hi⟩)
  · exact Or.inl (Or.inl h)

instance : IsTrans ScoredSailing recBefore := by
  constructor
  intro a b c hab hbc
  rcases hab with hab | ⟨hab, hab2⟩ <;> rcases hbc with hbc | ⟨hbc, hbc2⟩
  · exact Or.inl (hbc.trans hab)
  · exact Or.inl (hbc ▸ hab)
  · exact Or.inl (hab ▸ hbc)
  · exact Or.inr ⟨hbc.trans hab, hab2.trans hbc2⟩

/-- Modelled from the spec: Rank = 1-based position in the sorted order
(spec section 4.3). -/
def assignRanksFrom (k : ℕ) : List ScoredSailing → List ScoredSailing
  | [] => []
  | s :: ss => { s with rank := k } :: assignRanksFrom (k + 1) ss

/-- Score, stable-sort descending by Match Score, and assign 1-based
ranks. -/
def rankSorted (p : PreferenceSet) (nw : NormalizedWeights)
    (recs : List SailingRecord) : List ScoredSailing :=
  assignRanksFrom 1 (List.insertionSort recBefore
    (scoreAllFrom p nw (listMin (recs.map SailingRecord.theo))
      (listMax (recs.map SailingRecord.theo)) 0 recs))

/-- Modelled from the spec: the core entry point `score_sailings` (spec
section 6) — rejects an all-zero weight configuration before any scoring
(spec section 7, `InvalidConfiguration`), requires that every record have its four
fields (spec section 7, `MissingRequiredField`, one failure per dataset),
then scores, sorts and ranks. -/
def score_sailings (raws : List RawRecord) (p : PreferenceSet)
    (w : WeightConfig) : Except ScoringError (List ScoredSailing) :=
  if allZero w then .error .invalidConfiguration
  else
    match validateDataset raws with
    | none => .error .missingRequiredField
    | some recs => .ok (rankSorted p (normalizeWeights w) recs)

/-! ### Helper lemmas about the core -/

theorem validateRecord_eq_none_iff (r : RawRecord) :
    validateRecord r = none ↔ hasMissingField r := by
  rcases r with ⟨s, m, pt, t⟩
  cases s <;> cases m <;> cases pt <;> cases t <;>
    simp [validateRecord, hasMissingField]

theorem validateDataset_eq_none_of_missing (raws : List RawRecord)
    (h : ∃ r ∈ raws, hasMissingField r) :
    validateDataset raws = none := by
  induction raws with
  | nil => simp at h
  | cons a as ih =>
    rcases h with ⟨r, hr, hmiss⟩
    rcases List.mem_cons.mp hr with rfl | hr2
    · unfold validateDataset
      rw [(validateRecord_eq_none_iff r).mpr hmiss]
    · unfold validateDataset
      rw [ih ⟨r, hr2, hmiss⟩]
      cases validateRecord a <;> rfl

theorem validateDataset_length (raws : List RawRecord)
    (recs : List SailingRecord) (h : validateDataset raws = some recs) :
    recs.length = raws.length := by
  induction raws generalizing recs with
  | nil =>
    unfold validateDataset at h
    cases h
    rfl
  | cons a as ih =>
    unfold validateDataset at h
    cases hv : validateRecord a with
    | none => rw [hv] at h; cases h
    | some v =>
      rw [hv] at h
      cases hd : validateDataset as with
      | none => rw [hd] at h; cases h
      | some vs =>
        rw [hd] at h
        cases h
        simp [ih vs hd]

theorem score_sailings_ok_inv (raws : List RawRecord) (p : PreferenceSet)
    (w : WeightConfig) (out : List ScoredSailing)
    (h : score_sailings raws p w = .ok out) :
    ¬ allZero w ∧ ∃ recs, validateDataset raws = some recs ∧
      out = rankSorted p (normalizeWeights w) recs := by
  unfold score_sailings at h
  by_cases hz : allZero w
  · rw [if_pos hz] at h
    cases h
  · rw [if_neg hz] at h
    cases hv : validateDataset raws with
    | none => rw [hv] at h; cases h
    | some recs =>
      rw [hv] at h
      cases h
      exact ⟨hz, recs, rfl, rfl⟩

theorem scoreAllFrom_length (p : PreferenceSet) (nw : NormalizedWeights)
    (lo hi : ℚ) (k : ℕ) (recs : List SailingRecord) :
    (scoreAllFrom p nw lo hi k recs).length = recs.length := by
  induction recs generalizing k with
  | nil => rfl
  | cons a as ih => simp [scoreAllFrom, ih]

theorem assignRanksFrom_length (k : ℕ) (l : List ScoredSailing) :
    (assignRanksFrom k l).length = l.length := by
  induction l generalizing k with
  | nil => rfl
  | cons a as ih => simp [assignRanksFrom, ih]

theorem mem_scoreAllFrom (p : PreferenceSet) (nw : NormalizedWeights)
    (lo hi : ℚ) (k : ℕ) (recs : List SailingRecord) (s : ScoredSailing)
    (h : s ∈ scoreAllFrom p nw lo hi k recs) :
    ∃ i : ℕ, ∃ r ∈ recs, s = mkScored p nw lo hi i r := by
  induction recs generalizing k with
  | nil => simp [scoreAllFrom] at h
  | cons a as ih =>
    simp only [scoreAllFrom, List.mem_cons] at h
    rcases h with h | h
    · exact ⟨k, a, List.mem_cons_self a as, h⟩
    · rcases ih (k + 1) h with ⟨i, r, hr, heq⟩
      exact ⟨i, r, List.mem_cons_of_mem a hr, heq⟩

theorem mem_assignRanksFrom (k : ℕ) (l : List ScoredSailing)
    (s : ScoredSailing) (h : s ∈ assignRanksFrom k l) :
    ∃ j : ℕ, ∃ t ∈ l, s = { t with rank := j } := by
  induction l generalizing k with
  | nil => simp [assignRanksFrom] at h
  | cons a as ih =>
    simp only [assignRanksFrom, List.mem_cons] at h
    rcases h with h | h
    · exact ⟨k, a, List.mem_cons_self a as, h⟩
    · rcases ih (k + 1) h with ⟨j, t, ht, heq⟩
      exact ⟨j, t, List.mem_cons_of_mem a ht, heq⟩

theorem shipScore_mem_unit (r : SailingRecord) (p : PreferenceSet) :
    0 ≤ shipScore r p ∧ shipScore r p ≤ 1 := by
  unfold shipScore
  split <;> norm_num

theorem monthScore_mem_unit (r : SailingRecord) (p : PreferenceSet) :
    0 ≤ monthScore r p ∧ monthScore r p ≤ 1 := by
  unfold monthScore
  split <;> norm_num

theorem portScore_mem_unit (r : SailingRecord) (p : PreferenceSet) :
    0 ≤ portScore r p ∧ portScore r p ≤ 1 := by
  unfold portScore
  split <;> norm_num

theorem theoScore_mem_unit (lo hi v : ℚ) :
    0 ≤ theoScore lo hi v ∧ theoScore lo hi v ≤ 1 := by
  unfold theoScore
  split
  · norm_num
  · exact ⟨le_max_left 0 _, max_le (by norm_num) (min_le_left 1 _)⟩

theorem normalizeWeights_nonneg (w : WeightConfig) :
    0 ≤ (normalizeWeights w).ship ∧ 0 ≤ (normalizeWeights w).month ∧
    0 ≤ (normalizeWeights w).port ∧ 0 ≤ (normalizeWeights w).theo := by
  unfold normalizeWeights
  refine ⟨?_, ?_, ?_, ?_⟩ <;> positivity

/-! ### Claim theorems about the core -/

/-- Claim C1: the scoring core is deterministic — two runs on identical inputs
produce identical outputs; `score_sailings` is a pure function of its
arguments, with no randomness and no hidden state. -/
theorem score_sailings_deterministic (raws1 raws2 : List RawRecord)
    (p1 p2 : PreferenceSet) (w1 w2 : WeightConfig)
    (hr : raws1 = raws2) (hp : p1 = p2) (hw : w1 = w2) :
    score_sailings raws1 p1 w1 = score_sailings raws2 p2 w2 := by
  subst hr hp hw
  rfl

/-- Witness for `C1` at a concrete input. -/
theorem score_sailings_deterministic_witness :
    score_sailings [⟨some "IC", some 1, some "MIA", some 10⟩]
        ⟨["IC"], [1], ["MIA"]⟩ ⟨3, 3, 3, 3⟩ =
      score_sailings [⟨some "IC", some 1, some "MIA", some 10⟩]
        ⟨["IC"], [1], ["MIA"]⟩ ⟨3, 3, 3, 3⟩ :=
  score_sailings_deterministic _ _ _ _ _ _ rfl rfl rfl

/-- Claim C5: with all four raw weights zero, scoring fails with
`InvalidConfiguration` — the error is returned before any scoring, and no
scored output is produced. -/
theorem score_sailings_all_zero (raws : List RawRecord) (p : PreferenceSet)
    (w : WeightConfig) (h : allZero w) :
    score_sailings raws p w = .error .invalidConfiguration := by
  unfold score_sailings
  rw [if_pos h]

/-- Witness for `C5` at the all-zero configuration. -/
theorem score_sailings_all_zero_witness :
    allZero ⟨0, 0, 0, 0⟩ ∧
    score_sailings [⟨some "IC", some 1, some "MIA", some 10⟩]
        ⟨[], [], []⟩ ⟨0, 0, 0, 0⟩ = .error .invalidConfiguration :=
  ⟨by decide, score_sailings_all_zero _ _ _ (by decide)⟩

/-- Claim C7: with all three preference sets empty, the ship, month and port
scorers each return exactly `1`; with a non-empty corresponding set, each
returns `1` on membership and `0` otherwise. -/
theorem factor_scorers_membership (r : SailingRecord) (p : PreferenceSet) :
    (p.ships = [] ∧ p.months = [] ∧ p.ports = [] →
      shipScore r p = 1 ∧ monthScore r p = 1 ∧ portScore r p = 1) ∧
    (p.ships ≠ [] →
      shipScore r p = if r.ship ∈ p.ships then 1 else 0) ∧
    (p.months ≠ [] →
      monthScore r p = if r.month ∈ p.months then 1 else 0) ∧
    (p.ports ≠ [] →
      portScore r p = if r.port ∈ p.ports then 1 else 0) := by
  refine ⟨?_, ?_, ?_, ?_⟩
  · rintro ⟨h1, h2, h3⟩
    unfold shipScore monthScore portScore
    rw [if_pos (Or.inl h1), if_pos (Or.inl h2), if_pos (Or.inl h3)]
    exact ⟨rfl, rfl, rfl⟩
  · intro hne
    unfold shipScore
    by_cases hm : r.ship ∈ p.ships
    · rw [if_pos (Or.inr hm), if_pos hm]
    · rw [if_neg ?_, if_neg hm]
      rintro (he | hmem)
      · exact hne he
      · exact hm hmem
  · intro hne
    unfold monthScore
    by_cases hm : r.month ∈ p.months
    · rw [if_pos (Or.inr hm), if_pos hm]
    · rw [if_neg ?_, if_neg hm]
      rintro (he | hmem)
      · exact hne he
      · exact hm hmem
  · intro hne
    unfold portScore
    by_cases hm : r.port ∈ p.ports
    · rw [if_pos (Or.inr hm), if_pos hm]
    · rw [if_neg ?_, if_neg hm]
      rintro (he | hmem)
      · exact hne he
      · exact hm hmem

/-- Witness for `C7` at a concrete record and preference set. -/
theorem factor_scorers_membership_witness :
    ((⟨["ST"], [2], []⟩ : PreferenceSet).ships = [] ∧
        (⟨["ST"], [2], []⟩ : PreferenceSet).months = [] ∧
        (⟨["ST"], [2], []⟩ : PreferenceSet).ports = [] →
      shipScore ⟨"IC", 1, "MIA", 10⟩ ⟨["ST"], [2], []⟩ = 1 ∧
      monthScore ⟨"IC", 1, "MIA", 10⟩ ⟨["ST"], [2], []⟩ = 1 ∧
      portScore ⟨"IC", 1, "MIA", 10⟩ ⟨["ST"], [2], []⟩ = 1) ∧
    ((⟨["ST"], [2], []⟩ : PreferenceSet).ships ≠ [] →
      shipScore ⟨"IC", 1, "MIA", 10⟩ ⟨["ST"], [2], []⟩ =
        if ("IC" : String) ∈ ["ST"] then 1 else 0) ∧
    ((⟨["ST"], [2], []⟩ : PreferenceSet).months ≠ [] →
      monthScore ⟨"IC", 1, "MIA", 10⟩ ⟨["ST"], [2], []⟩ =
        if (1 : ℕ) ∈ [2] then 1 else 0) ∧
    ((⟨["ST"], [2], []⟩ : PreferenceSet).ports ≠ [] →
      portScore ⟨"IC", 1, "MIA", 10⟩ ⟨["ST"], [2], []⟩ =
        if ("MIA" : String) ∈ ([] : List String) then 1 else 0) :=
  factor_scorers_membership ⟨"IC", 1, "MIA", 10⟩ ⟨["ST"], [2], []⟩

/-- Claim C8: a dataset in which some record lacks a required field makes
scoring fail with `MissingRequiredField` — a single failure for the whole
dataset (the `Except` result carries exactly one error), not one per row. -/
theorem score_sailings_missing_field (raws : List RawRecord)
    (p : PreferenceSet) (w : WeightConfig) (hw : ¬ allZero w)
    (hm : ∃ r ∈ raws, hasMissingField r) :
    score_sailings raws p w = .error .missingRequiredField := by
  unfold score_sailings
  rw [if_neg hw, validateDataset_eq_none_of_missing raws hm]

/-- Witness for `C8` on a dataset whose second record lacks its month. -/
theorem score_sailings_missing_field_witness :
    ¬ allZero ⟨3, 3, 3, 3⟩ ∧
    (∃ r ∈ [(⟨some "IC", some 1, some "MIA", some 10⟩ : RawRecord),
        ⟨some "ST", none, some "FLL", some 20⟩], hasMissingField r) ∧
    score_sailings [⟨some "IC", some 1, some "MIA", some 10⟩,
        ⟨some "ST", none, some "FLL", some 20⟩]
      ⟨[], [], []⟩ ⟨3, 3, 3, 3⟩ = .error .missingRequiredField :=
  ⟨by decide, by decide,
    score_sailings_missing_field _ _ _ (by decide) (by decide)⟩

theorem weighted_combo_bounds (a b c d fa fb fc fd : ℚ)
    (ha : 0 ≤ a) (hb : 0 ≤ b) (hc : 0 ≤ c) (hd : 0 ≤ d)
    (hsum : a + b + c + d = 1)
    (hfa : 0 ≤ fa ∧ fa ≤ 1) (hfb : 0 ≤ fb ∧ fb ≤ 1)
    (hfc : 0 ≤ fc ∧ fc ≤ 1) (hfd : 0 ≤ fd ∧ fd ≤ 1) :
    0 ≤ 100 * (a * fa + b * fb + c * fc + d * fd) ∧
      100 * (a * fa + b * fb + c * fc + d * fd) ≤ 100 := by
  have h1 : a * fa ≤ a * 1 := mul_le_mul_of_nonneg_left hfa.2 ha
  have h2 : b * fb ≤ b * 1 := mul_le_mul_of_nonneg_left hfb.2 hb
  have h3 : c * fc ≤ c * 1 := mul_le_mul_of_nonneg_left hfc.2 hc
  have h4 : d * fd ≤ d * 1 := mul_le_mul_of_nonneg_left hfd.2 hd
  have h5 : 0 ≤ a * fa := mul_nonneg ha hfa.1
  have h6 : 0 ≤ b * fb := mul_nonneg hb hfb.1
  have h7 : 0 ≤ c * fc := mul_nonneg hc hfc.1
  have h8 : 0 ≤ d * fd := mul_nonneg hd hfd.1
  constructor <;> nlinarith

/-- Claim C2: every Match Score attached by the core equals 100 times the sum,
over the four factors, of the factor score of the record weighted by the
normalized weight of that factor, and lies in `[0, 100]`. -/
theorem score_sailings_match_formula (raws : List RawRecord)
    (p : PreferenceSet) (w : WeightConfig) (out : List ScoredSailing)
    (h : score_sailings raws p w = .ok out) :
    ∀ s ∈ out,
      s.matchScore = 100 * ((normalizeWeights w).ship * s.shipS +
        (normalizeWeights w).month * s.monthS +
        (normalizeWeights w).port * s.portS +
        (normalizeWeights w).theo * s.theoS) ∧
      0 ≤ s.matchScore ∧ s.matchScore ≤ 100 := by
  obtain ⟨hz, recs, hv, rfl⟩ := score_sailings_ok_inv raws p w out h
  intro s hs
  unfold rankSorted at hs
  rcases mem_assignRanksFrom _ _ _ hs with ⟨j, t, ht, rfl⟩
  have ht2 := (List.perm_insertionSort recBefore _).mem_iff.mp ht
  rcases mem_scoreAllFrom _ _ _ _ _ _ _ ht2 with ⟨i, r, _, rfl⟩
  obtain ⟨hn1, hn2, hn3, hn4⟩ := normalizeWeights_nonneg w
  have hsum := normalizeWeights_sum_eq_one w hz
  unfold normSum at hsum
  refine ⟨by simp [mkScored], ?_⟩
  have hb := weighted_combo_bounds (normalizeWeights w).ship
    (normalizeWeights w).month (normalizeWeights w).port
    (normalizeWeights w).theo (shipScore r p) (monthScore r p) (portScore r p)
    (theoScore (listMin (recs.map SailingRecord.theo))
      (listMax (recs.map SailingRecord.theo)) r.theo)
    hn1 hn2 hn3 hn4 hsum (shipScore_mem_unit r p) (monthScore_mem_unit r p)
    (portScore_mem_unit r p) (theoScore_mem_unit _ _ _)
  simpa [mkScored] using hb

/-- Witness for `C2` on a one-record dataset at the default weights. -/
theorem score_sailings_match_formula_witness :
    score_sailings [⟨some "IC", some 1, some "MIA", some 10⟩]
        ⟨[], [], []⟩ ⟨3, 3, 3, 3⟩ =
      .ok [⟨⟨"IC", 1, "MIA", 10⟩, 0, 1, 1, 1, 1 / 2, 175 / 2, 1⟩] ∧
    ∀ s ∈ [(⟨⟨"IC", 1, "MIA", 10⟩, 0, 1, 1, 1, 1 / 2, 175 / 2, 1⟩ :
        ScoredSailing)],
      s.matchScore = 100 * ((normalizeWeights ⟨3, 3, 3, 3⟩).ship * s.shipS +
        (normalizeWeights ⟨3, 3, 3, 3⟩).month * s.monthS +
        (normalizeWeights ⟨3, 3, 3, 3⟩).port * s.portS +
        (normalizeWeights ⟨3, 3, 3, 3⟩).theo * s.theoS) ∧
      0 ≤ s.matchScore ∧ s.matchScore ≤ 100 :=
  have h : score_sailings [⟨some "IC", some 1, some "MIA", some 10⟩]
      ⟨[], [], []⟩ ⟨3, 3, 3, 3⟩ =
        .ok [⟨⟨"IC", 1, "MIA", 10⟩, 0, 1, 1, 1, 1 / 2, 175 / 2, 1⟩] := by
    norm_num [score_sailings, validateDataset, validateRecord, rankSorted,
      scoreAllFrom, mkScored, shipScore, monthScore, portScore, theoScore,
      listMin, listMax, normalizeWeights, totalWeight, allZero,
      assignRanksFrom, List.insertionSort, List.orderedInsert, recBefore]
  ⟨h, score_sailings_match_formula
    [⟨some "IC", some 1, some "MIA", some 10⟩] ⟨[], [], []⟩ ⟨3, 3, 3, 3⟩
    [⟨⟨"IC", 1, "MIA", 10⟩, 0, 1, 1, 1, 1 / 2, 175 / 2, 1⟩] h⟩

/-- Claim C6: the core yields exactly one scored record per input record (output
length equals input length), and the empty dataset yields empty output
without error. -/
theorem score_sailings_cardinality (raws : List RawRecord)
    (p : PreferenceSet) (w : WeightConfig) :
    (∀ out, score_sailings raws p w = .ok out → out.length = raws.length) ∧
    (¬ allZero w → score_sailings [] p w = .ok []) := by
  constructor
  · intro out h
    obtain ⟨hz, recs, hv, rfl⟩ := score_sailings_ok_inv raws p w out h
    unfold rankSorted
    rw [assignRanksFrom_length, (List.perm_insertionSort recBefore _).length_eq,
      scoreAllFrom_length, validateDataset_length raws recs hv]
  · intro hw
    unfold score_sailings
    rw [if_neg hw]
    rfl

/-- Witness for `C6` at a concrete one-record dataset. -/
theorem score_sailings_cardinality_witness :
    (∀ out, score_sailings [⟨some "IC", some 1, some "MIA", some 10⟩]
        ⟨[], [], []⟩ ⟨3, 3, 3, 3⟩ = .ok out →
      out.length = [(⟨some "IC", some 1, some "MIA", some 10⟩ :
        RawRecord)].length) ∧
    (¬ allZero ⟨3, 3, 3, 3⟩ →
      score_sailings [] ⟨[], [], []⟩ ⟨3, 3, 3, 3⟩ = .ok []) :=
  score_sailings_cardinality _ _ _

theorem assignRanksFrom_getElem (k : ℕ) (l : List ScoredSailing) (i : ℕ)
    (hi : i < (assignRanksFrom k l).length) (hi2 : i < l.length) :
    (assignRanksFrom k l)[i] = { l[i] with rank := k + i } := by
  induction l generalizing k i with
  | nil => simp at hi2
  | cons a as ih =>
    cases i with
    | zero => simp [assignRanksFrom]
    | succ n =>
      have hn : n < as.length := by simpa using hi2
      have hn2 : n < (assignRanksFrom (k + 1) as).length := by
        rw [assignRanksFrom_length]
        exact hn
      have harith : k + 1 + n = k + (n + 1) := by omega
      simp only [assignRanksFrom, List.getElem_cons_succ]
      rw [ih (k + 1) n hn2 hn, harith]

theorem map_srcIdx_assignRanksFrom (k : ℕ) (l : List ScoredSailing) :
    (assignRanksFrom k l).map ScoredSailing.srcIdx =
      l.map ScoredSailing.srcIdx := by
  induction l generalizing k with
  | nil => rfl
  | cons a as ih => simp [assignRanksFrom, ih]

theorem map_srcIdx_scoreAllFrom (p : PreferenceSet) (nw : NormalizedWeights)
    (lo hi : ℚ) (k : ℕ) (recs : List SailingRecord) :
    (scoreAllFrom p nw lo hi k recs).map ScoredSailing.srcIdx =
      List.range' k recs.length := by
  induction recs generalizing k with
  | nil => rfl
  | cons a as ih => simp [scoreAllFrom, mkScored, List.range'_succ, ih]

/-- Claim C3: the output of the core is sorted in descending Match Score order, the
sort is stable — records with equal Match Scores keep their relative input
order, where `srcIdx` records the 0-based input position and the output
`srcIdx` values are exactly the input positions — and the rank of each record is
its 1-based position in the sorted order. -/
theorem score_sailings_ranking (raws : List RawRecord) (p : PreferenceSet)
    (w : WeightConfig) (out : List ScoredSailing)
    (h : score_sailings raws p w = .ok out) :
    (∀ i j (hi : i < out.length) (hj : j < out.length), i < j →
        out[j].matchScore ≤ out[i].matchScore) ∧
    (∀ i j (hi : i < out.length) (hj : j < out.length), i < j →
        out[i].matchScore = out[j].matchScore →
        out[i].srcIdx < out[j].srcIdx) ∧
    (∀ i (hi : i < out.length), out[i].rank = i + 1) ∧
    (out.map ScoredSailing.srcIdx).Perm (List.range raws.length) := by
  obtain ⟨hz, recs, hv, rfl⟩ := score_sailings_ok_inv raws p w out h
  unfold rankSorted
  set scored := scoreAllFrom p (normalizeWeights w)
    (listMin (recs.map SailingRecord.theo))
    (listMax (recs.map SailingRecord.theo)) 0 recs with hscored_def
  set sorted := List.insertionSort recBefore scored with hsorted_def
  have hsorted : List.Sorted recBefore sorted :=
    List.sorted_insertionSort recBefore scored
  have hperm : sorted.Perm scored := List.perm_insertionSort recBefore scored
  have hmap : (assignRanksFrom 1 sorted).map ScoredSailing.srcIdx =
      sorted.map ScoredSailing.srcIdx := map_srcIdx_assignRanksFrom 1 sorted
  have hmap2 : (scored.map ScoredSailing.srcIdx) = List.range' 0 recs.length :=
    map_srcIdx_scoreAllFrom _ _ _ _ _ _
  have hpermmap : ((assignRanksFrom 1 sorted).map ScoredSailing.srcIdx).Perm
      (List.range raws.length) := by
    rw [hmap]
    refine (hperm.map ScoredSailing.srcIdx).trans ?_
    rw [hmap2, ← List.range_eq_range', validateDataset_length raws recs hv]
  have hnd : ((assignRanksFrom 1 sorted).map ScoredSailing.srcIdx).Nodup :=
    hpermmap.nodup_iff.mpr (List.nodup_range raws.length)
  have hlen : (assignRanksFrom 1 sorted).length = sorted.length :=
    assignRanksFrom_length 1 sorted
  have hget : ∀ i (h1 : i < (assignRanksFrom 1 sorted).length)
      (h2 : i < sorted.length),
      (assignRanksFrom 1 sorted)[i] = { sorted[i] with rank := 1 + i } := by
    intro i h1 h2
    exact assignRanksFrom_getElem 1 sorted i h1 h2
  have hrel : ∀ i j (h1 : i < sorted.length) (h2 : j < sorted.length),
      i < j → recBefore sorted[i] sorted[j] := by
    intro i j h1 h2 hij
    have h3 := hsorted.rel_get_of_lt (a := ⟨i, h1⟩) (b := ⟨j, h2⟩) hij
    simpa [List.get_eq_getElem] using h3
  refine ⟨?_, ?_, ?_, hpermmap⟩
  · intro i j h1 h2 hij
    have hsi : i < sorted.length := hlen ▸ h1
    have hsj : j < sorted.length := hlen ▸ h2
    rw [hget i h1 hsi, hget j h2 hsj]
    rcases hrel i j hsi hsj hij with hlt | ⟨heq, _⟩
    · simpa using le_of_lt hlt
    · simpa using le_of_eq heq
  · intro i j h1 h2 hij heq
    have hsi : i < sorted.length := hlen ▸ h1
    have hsj : j < sorted.length := hlen ▸ h2
    rw [hget i h1 hsi, hget j h2 hsj] at heq ⊢
    simp only [ScoredSailing.matchScore, ScoredSailing.srcIdx] at heq ⊢
    have hne : sorted[i].srcIdx ≠ sorted[j].srcIdx := by
      intro hcontra
      have hmlen1 : i <
          ((assignRanksFrom 1 sorted).map ScoredSailing.srcIdx).length := by
        simpa using h1
      have hmlen2 : j <
          ((assignRanksFrom 1 sorted).map ScoredSailing.srcIdx).length := by
        simpa using h2
      have hmi : ((assignRanksFrom 1 sorted).map ScoredSailing.srcIdx)[i] =
          ((assignRanksFrom 1 sorted).map ScoredSailing.srcIdx)[j] := by
        rw [List.getElem_map, List.getElem_map, hget i h1 hsi, hget j h2 hsj]
        simpa using hcontra
      have h4 := hnd.getElem_inj_iff.mp hmi
      omega
    rcases hrel i j hsi hsj hij with hlt | ⟨_, hle⟩
    · exact absurd heq (ne_of_gt hlt)
    · exact lt_of_le_of_ne hle hne
  · intro i h1
    have hsi : i < sorted.length := hlen ▸ h1
    rw [hget i h1 hsi]
    simp [Nat.add_comm]

/-- Witness for `C3` on a concrete two-record dataset. -/
theorem score_sailings_ranking_witness :
    (∀ i j (hi : i < ([⟨⟨"ST", 2, "FLL", 20⟩, 1, 1, 1, 1, 1, 100, 1⟩,
          ⟨⟨"IC", 1, "MIA", 10⟩, 0, 1, 1, 1, 0, 75, 2⟩] :
        List ScoredSailing).length)
        (hj : j < ([⟨⟨"ST", 2, "FLL", 20⟩, 1, 1, 1, 1, 1, 100, 1⟩,
          ⟨⟨"IC", 1, "MIA", 10⟩, 0, 1, 1, 1, 0, 75, 2⟩] :
        List ScoredSailing).length), i < j →
        ([⟨⟨"ST", 2, "FLL", 20⟩, 1, 1, 1, 1, 1, 100, 1⟩,
          ⟨⟨"IC", 1, "MIA", 10⟩, 0, 1, 1, 1, 0, 75, 2⟩] :
        List ScoredSailing)[j].matchScore ≤
        ([⟨⟨"ST", 2, "FLL", 20⟩, 1, 1, 1, 1, 1, 100, 1⟩,
          ⟨⟨"IC", 1, "MIA", 10⟩, 0, 1, 1, 1, 0, 75, 2⟩] :
        List ScoredSailing)[i].matchScore) ∧
    (∀ i j (hi : i < ([⟨⟨"ST", 2, "FLL", 20⟩, 1, 1, 1, 1, 1, 100, 1⟩,
          ⟨⟨"IC", 1, "MIA", 10⟩, 0, 1, 1, 1, 0, 75, 2⟩] :
        List ScoredSailing).length)
        (hj : j < ([⟨⟨"ST", 2, "FLL", 20⟩, 1, 1, 1, 1, 1, 100, 1⟩,
          ⟨⟨"IC", 1, "MIA", 10⟩, 0, 1, 1, 1, 0, 75, 2⟩] :
        List ScoredSailing).length), i < j →
        ([⟨⟨"ST", 2, "FLL", 20⟩, 1, 1, 1, 1, 1, 100, 1⟩,
          ⟨⟨"IC", 1, "MIA", 10⟩, 0, 1, 1, 1, 0, 75, 2⟩] :
        List ScoredSailing)[i].matchScore =
        ([⟨⟨"ST", 2, "FLL", 20⟩, 1, 1, 1, 1, 1, 100, 1⟩,
          ⟨⟨"IC", 1, "MIA", 10⟩, 0, 1, 1, 1, 0, 75, 2⟩] :
        List ScoredSailing)[j].matchScore →
        ([⟨⟨"ST", 2, "FLL", 20⟩, 1, 1, 1, 1, 1, 100, 1⟩,
          ⟨⟨"IC", 1, "MIA", 10⟩, 0, 1, 1, 1, 0, 75, 2⟩] :
        List ScoredSailing)[i].srcIdx <
        ([⟨⟨"ST", 2, "FLL", 20⟩, 1, 1, 1, 1, 1, 100, 1⟩,
          ⟨⟨"IC", 1, "MIA", 10⟩, 0, 1, 1, 1, 0, 75, 2⟩] :
        List ScoredSailing)[j].srcIdx) ∧
    (∀ i (hi : i < ([⟨⟨"ST", 2, "FLL", 20⟩, 1, 1, 1, 1, 1, 100, 1⟩,
          ⟨⟨"IC", 1, "MIA", 10⟩, 0, 1, 1, 1, 0, 75, 2⟩] :
        List ScoredSailing).length),
        ([⟨⟨"ST", 2, "FLL", 20⟩, 1, 1, 1, 1, 1, 100, 1⟩,
          ⟨⟨"IC", 1, "MIA", 10⟩, 0, 1, 1, 1, 0, 75, 2⟩] :
        List ScoredSailing)[i].rank = i + 1) ∧
    (([⟨⟨"ST", 2, "FLL", 20⟩, 1, 1, 1, 1, 1, 100, 1⟩,
        ⟨⟨"IC", 1, "MIA", 10⟩, 0, 1, 1, 1, 0, 75, 2⟩] :
      List ScoredSailing).map ScoredSailing.srcIdx).Perm
      (List.range ([(⟨some "IC", some 1, some "MIA", some 10⟩ : RawRecord),
        ⟨some "ST", some 2, some "FLL", some 20⟩] :
          List RawRecord).length) :=
  have h : score_sailings [⟨some "IC", some 1, some "MIA", some 10⟩,
      ⟨some "ST", some 2, some "FLL", some 20⟩] ⟨[], [], []⟩ ⟨3, 3, 3, 3⟩ =
        .ok [⟨⟨"ST", 2, "FLL", 20⟩, 1, 1, 1, 1, 1, 100, 1⟩,
          ⟨⟨"IC", 1, "MIA", 10⟩, 0, 1, 1, 1, 0, 75, 2⟩] := by
    norm_num [score_sailings, validateDataset, validateRecord, rankSorted,
      scoreAllFrom, mkScored, shipScore, monthScore, portScore, theoScore,
      listMin, listMax, normalizeWeights, totalWeight, allZero,
      assignRanksFrom, List.insertionSort, List.orderedInsert, recBefore]
  score_sailings_ranking
    [⟨some "IC", some 1, some "MIA", some 10⟩,
      ⟨some "ST", some 2, some "FLL", some 20⟩] ⟨[], [], []⟩ ⟨3, 3, 3, 3⟩
    [⟨⟨"ST", 2, "FLL", 20⟩, 1, 1, 1, 1, 1, 100, 1⟩,
      ⟨⟨"IC", 1, "MIA", 10⟩, 0, 1, 1, 1, 0, 75, 2⟩] h

end SailRec
